import Mathlib

/-!
Verification of the manifest-synchronization and vault-health-scan logic of the
minimal-second-brain repository, shallowly embedded in Lean.

Modelling conventions, shared by all definitions below:
* a Python string is a `List Char` (`PyStr`); Python compares strings by code
  point, exactly as `<` on `Char` does;
* a file's text content is the list of its lines as produced by Python's file
  iteration (each line with its trailing newline removed by the `strip` the
  source always applies first); an unreadable file is `none`;
* `str.strip()` is modelled with `Char.isWhitespace` (space, tab, CR, LF),
  the whitespace actually occurring in the vault's ASCII markdown;
* timestamps (`datetime`) are integer epoch seconds, `datetime.fromtimestamp`
  is the identity and `timedelta.days` is floor division by 86400.
-/

/-- Python strings, modelled as lists of characters (code points). -/
abbrev PyStr := List Char

/-- `str.strip()`, left half: drop leading whitespace. -/
def pyStripLeft (s : PyStr) : PyStr := s.dropWhile Char.isWhitespace

/-- `str.strip()`, right half: drop trailing whitespace. -/
def pyStripRight (s : PyStr) : PyStr := (s.reverse.dropWhile Char.isWhitespace).reverse

/-- Python's `str.strip()`: remove leading and trailing whitespace. -/
def pyStrip (s : PyStr) : PyStr := pyStripRight (pyStripLeft s)

/-- Python's `str.startswith(pre)`. -/
def pyStartswith (pre s : PyStr) : Bool := pre.isPrefixOf s

/-- Lexicographic strict order on Python strings (code-point comparison),
the order underlying Python's `<` on `str` and hence `sorted`. -/
def strLt : PyStr → PyStr → Bool
  | _, [] => false
  | [], _ :: _ => true
  | a :: as, b :: bs => if a < b then true else if b < a then false else strLt as bs

/-- Lexicographic non-strict order on Python strings: `x <= y` iff `not (y < x)`. -/
def strLe (x y : PyStr) : Bool := !(strLt y x)

theorem strLt_irrefl (s : PyStr) : strLt s s = false := by
  induction s with
  | nil => rfl
  | cons a as ih => simp [strLt, ih]

theorem strLt_trans :
    ∀ x y z : PyStr, strLt x y = true → strLt y z = true → strLt x z = true := by
  intro x
  induction x with
  | nil =>
    intro y z hxy hyz
    cases y with
    | nil => exact absurd hxy (by simp [strLt])
    | cons b bs =>
      cases z with
      | nil => exact absurd hyz (by simp [strLt])
      | cons c cs => simp [strLt]
  | cons a as ih =>
    intro y z hxy hyz
    cases y with
    | nil => exact absurd hxy (by simp [strLt])
    | cons b bs =>
      cases z with
      | nil => exact absurd hyz (by simp [strLt])
      | cons c cs =>
        simp only [strLt] at hxy hyz ⊢
        by_cases hab : a < b
        · by_cases hbc : b < c
          · simp [lt_trans hab hbc]
          · by_cases hcb : c < b
            · exact absurd hyz (by simp [hbc, hcb])
            · have hbc' : b = c := le_antisymm (le_of_not_lt hcb) (le_of_not_lt hbc)
              simp [hbc' ▸ hab]
        · by_cases hba : b < a
          · exact absurd hxy (by simp [hab, hba])
          · have hba' : a = b := le_antisymm (le_of_not_lt hba) (le_of_not_lt hab)
            subst hba'
            by_cases hac : a < c
            · simp [hac]
            · by_cases hca : c < a
              · exact absurd hyz (by simp [hac, hca])
              · rw [if_neg hac, if_neg hca] at hyz ⊢
                rw [if_neg (lt_irrefl a), if_neg (lt_irrefl a)] at hxy
                exact ih bs cs hxy hyz

theorem strLt_conn :
    ∀ x y : PyStr, strLt x y = false → strLt y x = false → x = y := by
  intro x
  induction x with
  | nil =>
    intro y hxy _
    cases y with
    | nil => rfl
    | cons b bs => exact absurd hxy (by simp [strLt])
  | cons a as ih =>
    intro y hxy hyx
    cases y with
    | nil => exact absurd hyx (by simp [strLt])
    | cons b bs =>
      simp only [strLt] at hxy hyx
      by_cases hab : a < b
      · exact absurd hxy (by simp [hab])
      · by_cases hba : b < a
        · exact absurd hyx (by simp [hba, hab])
        · have hab' : a = b := le_antisymm (le_of_not_lt hba) (le_of_not_lt hab)
          subst hab'
          rw [if_neg (lt_irrefl a), if_neg (lt_irrefl a)] at hxy hyx
          rw [ih bs hxy hyx]

theorem strLt_asymm {x y : PyStr} (h : strLt x y = true) : strLt y x = false := by
  by_contra hc
  have hyx : strLt y x = true := by
    cases h2 : strLt y x with
    | false => exact absurd h2 hc
    | true => rfl
  have : strLt x x = true := strLt_trans x y x h hyx
  rw [strLt_irrefl] at this
  exact Bool.false_ne_true this

theorem strLe_refl (x : PyStr) : strLe x x = true := by
  simp [strLe, strLt_irrefl]

theorem strLt_of_strLe_of_ne {x y : PyStr} (h : strLe x y = true) (hne : x ≠ y) :
    strLt x y = true := by
  simp only [strLe, Bool.not_eq_true'] at h
  cases h2 : strLt x y with
  | true => rfl
  | false => exact absurd (strLt_conn x y h2 h) hne

/-- The non-strict lexicographic order as a `Prop`-valued relation, used to
instantiate Mathlib's sorting and `Finset.sort` machinery. -/
def strLeP (x y : PyStr) : Prop := strLe x y = true

instance : DecidableRel strLeP := fun x y => inferInstanceAs (Decidable (strLe x y = true))

theorem strLe_trans {a b c : PyStr} (hab : strLe a b = true) (hbc : strLe b c = true) :
    strLe a c = true := by
  simp only [strLe, Bool.not_eq_true'] at hab hbc ⊢
  cases h : strLt c a with
  | false => rfl
  | true =>
    cases h2 : strLt b a with
    | true => exact absurd h2 (by simp [hab])
    | false =>
      cases h3 : strLt c b with
      | true => exact absurd h3 (by simp [hbc])
      | false =>
        have hba : b = a := strLt_conn b a h2 (by
          cases h4 : strLt a b with
          | false => rfl
          | true =>
            have := strLt_trans c a b h h4
            exact absurd this (by simp [hbc]))
        subst hba
        exact absurd h (by simp [h3])

theorem strLe_total (a b : PyStr) : strLe a b = true ∨ strLe b a = true := by
  simp only [strLe, Bool.not_eq_true']
  cases h : strLt b a with
  | false => exact Or.inl rfl
  | true => exact Or.inr (strLt_asymm h)

instance : IsTrans PyStr strLeP where
  trans := fun _ _ _ hab hbc => strLe_trans hab hbc

instance : IsAntisymm PyStr strLeP where
  antisymm := by
    intro a b hab hba
    simp only [strLeP, strLe, Bool.not_eq_true'] at hab hba
    exact strLt_conn a b hba hab

instance : IsTotal PyStr strLeP where
  total := fun a b => strLe_total a b

/-! ## Manifest engine, from `.github/scripts/sync-manifests.py` -/

/-- One branch body of `get_first_heading`: a stripped line that starts with
`#` has the heading markers removed (`line.lstrip('#')`) and is stripped again. -/
def headingDescr (line : PyStr) : PyStr := pyStrip (line.dropWhile (fun c => c = '#'))

/-- Other branch body of `get_first_heading`:
`line[:80] + ('...' if len(line) > 80 else '')`. -/
def truncDescr (line : PyStr) : PyStr :=
  line.take 80 ++ (if 80 < line.length then ("...".toList) else [])

/-- The loop of `get_first_heading` (sync-manifests.py lines 23-31) over the
file's lines: skip blank lines after stripping; the first non-blank stripped
line yields the description. -/
def firstHeadingLines : List PyStr → PyStr
  | [] => "No description".toList
  | rawLine :: rest =>
    let line := pyStrip rawLine
    if line = [] then firstHeadingLines rest
    else if pyStartswith ("#".toList) line then headingDescr line
    else truncDescr line

/-- `get_first_heading` (sync-manifests.py lines 19-34): `none` models a file
whose `open`/read raises, which the bare `except` turns into the sentinel. -/
def getFirstHeading : Option (List PyStr) → PyStr
  | none => "No description".toList
  | some lines => firstHeadingLines lines

/-- A markdown note: its stem (filename without the `.md` extension) and its
content as the list of lines Python's file iteration yields, or `none` if the
file is unreadable. -/
structure Note where
  stem : PyStr
  content : Option (List PyStr)
deriving DecidableEq

/-- `f.name` of a note's path: the stem with the `.md` extension restored.
Path objects compare by this full name, which is what
`sorted(knowledge_dir.glob('*.md'))` orders by. -/
def mdName (n : Note) : PyStr := n.stem ++ (".md".toList)

/-- `sorted` on paths within one directory: order by full filename. -/
def noteLeP (a b : Note) : Prop := strLe (mdName a) (mdName b) = true

instance : DecidableRel noteLeP :=
  fun a b => inferInstanceAs (Decidable (strLe (mdName a) (mdName b) = true))

instance : IsTrans Note noteLeP where
  trans := fun _ _ _ hab hbc => strLe_trans hab hbc

instance : IsTotal Note noteLeP where
  total := fun a b => strLe_total (mdName a) (mdName b)

/-- sync-manifests.py lines 40-43: all `.md` files except `MANIFEST.md`,
sorted (Python's `sorted` on the paths; the sort key within one directory is
the filename). The enumeration order of `glob` is the input list order. -/
def sortedMdFiles (notes : List Note) : List Note :=
  List.insertionSort noteLeP (notes.filter (fun f => mdName f ≠ ("MANIFEST.md".toList)))

/-- The four fixed leading lines of every generated manifest
(sync-manifests.py line 46). -/
def manifestHeader : List PyStr :=
  ["# Knowledge Manifest".toList, [], "| File | Description |".toList,
   "|------|-------------|".toList]

/-- One generated table row: `| [[{name}]] | {description} |`
(sync-manifests.py line 55). -/
def manifestRow (n : Note) : PyStr :=
  ("| [[".toList) ++ n.stem ++ ("]] | ".toList) ++ getFirstHeading n.content ++ (" |".toList)

/-- The placeholder row for an empty folder (sync-manifests.py line 49). -/
def placeholderRow : PyStr := "| *(empty)* | Add notes to this folder |".toList

/-- The full list of manifest lines; the final empty string yields the
trailing newline after `'\n'.join` (sync-manifests.py lines 46-57). -/
def generateManifestLines (notes : List Note) : List PyStr :=
  let mdFiles := sortedMdFiles notes
  manifestHeader ++
    (if mdFiles = [] then [placeholderRow] else mdFiles.map manifestRow) ++ [[]]

/-- `'\n'.join(lines)` (sync-manifests.py line 58). -/
def joinNL : List PyStr → PyStr
  | [] => []
  | [l] => l
  | l :: l2 :: ls => l ++ '\n' :: joinNL (l2 :: ls)

/-- A `Knowledge/` directory: its notes other than `MANIFEST.md`, and the
content of `MANIFEST.md` itself (`none` when the file does not exist). -/
structure KnowledgeDir where
  notes : List Note
  manifest : Option PyStr
deriving DecidableEq

/-- `generate_manifest_content` (sync-manifests.py lines 37-58). -/
def generateManifestContent (d : KnowledgeDir) : PyStr := joinNL (generateManifestLines d.notes)

/-- Result of `update_manifest`: the returned boolean and the directory state
after the call (the write, when one happens, replaces `MANIFEST.md` wholesale). -/
structure SyncResult where
  inSync : Bool
  dir : KnowledgeDir
deriving DecidableEq

/-- `update_manifest` (sync-manifests.py lines 61-86): regenerate, compare
byte-for-byte with the current content (missing file reads as the empty
string), and overwrite unless `check_only` or already matching. -/
def updateManifest (d : KnowledgeDir) (checkOnly : Bool) : SyncResult :=
  let newContent := generateManifestContent d
  let currentContent := match d.manifest with
    | some c => c
    | none => []
  if currentContent = newContent then ⟨true, d⟩
  else if checkOnly then ⟨false, d⟩
  else ⟨false, ⟨d.notes, some newContent⟩⟩

/-- C1: `update_manifest` is idempotent: a second call with no intervening
filesystem change reports in-sync, and the regenerated content after the first
call is byte-identical to the content generated before it. -/
theorem updateManifest_idempotent (d : KnowledgeDir) :
    (updateManifest (updateManifest d false).dir false).inSync = true ∧
    generateManifestContent (updateManifest d false).dir = generateManifestContent d := by
  obtain ⟨notes, m⟩ := d
  cases m with
  | none =>
    by_cases h : ([] : PyStr) = joinNL (generateManifestLines notes)
    · simp [updateManifest, generateManifestContent, h]
    · simp [updateManifest, generateManifestContent, h]
  | some c =>
    by_cases h : c = joinNL (generateManifestLines notes)
    · simp [updateManifest, generateManifestContent, h]
    · simp [updateManifest, generateManifestContent, h]

example :
    generateManifestContent
      ⟨[⟨"Zebra".toList, some [("# Z".toList)]⟩, ⟨"Alpha".toList, some [("# A".toList)]⟩],
       none⟩ =
    ("# Knowledge Manifest\n\n| File | Description |\n|------|-------------|\n| [[Alpha]] | A |\n| [[Zebra]] | Z |\n".toList) := by
  decide

example :
    generateManifestContent ⟨[], none⟩ =
    ("# Knowledge Manifest\n\n| File | Description |\n|------|-------------|\n| *(empty)* | Add notes to this folder |\n".toList) := by
  decide

/-- The note stems in the order their rows appear in the generated manifest
(the rows are `sortedMdFiles` mapped through `manifestRow`). -/
def rowStems (notes : List Note) : List PyStr := (sortedMdFiles notes).map Note.stem

/-- C3, counterexample: with notes `foo.md` and `foo bar.md`, the generated
rows are `[[foo bar]]` then `[[foo]]`, which is not ascending by stem
(`"foo" < "foo bar"` lexicographically): `sorted` orders by full filename and
`"foo bar.md" < "foo.md"` because a space precedes a dot. -/
theorem generateManifest_stem_order_cex :
    rowStems [⟨"foo".toList, some [("# F".toList)]⟩,
              ⟨"foo bar".toList, some [("# B".toList)]⟩] =
      [("foo bar".toList), ("foo".toList)] ∧
    strLt ("foo".toList) ("foo bar".toList) = true ∧
    ¬ List.Pairwise (fun a b => strLt a b = true)
        (rowStems [⟨"foo".toList, some [("# F".toList)]⟩,
                   ⟨"foo bar".toList, some [("# B".toList)]⟩]) := by
  refine ⟨by decide, by decide, ?_⟩
  intro h
  have := List.rel_of_pairwise_cons h (List.mem_singleton.mpr rfl)
  revert this
  decide

/-- The strict filename order on notes. -/
def noteLtP (a b : Note) : Prop := strLt (mdName a) (mdName b) = true

theorem noteLtP_of_noteLeP_of_name_ne {a b : Note} (h : noteLeP a b)
    (hne : mdName a ≠ mdName b) : noteLtP a b :=
  strLt_of_strLe_of_ne h hne

/-- C3, amended: the rows of the generated manifest appear in strictly
ascending lexicographic order of the notes' full filenames (stem plus `.md`),
regardless of the order in which the filesystem enumerates the files; the
generated lines (hence the content) are invariant under permutation of the
enumeration. -/
theorem generateManifest_filename_order (notes notes2 : List Note)
    (h : (notes.map mdName).Nodup) (hp : notes.Perm notes2) :
    List.Pairwise noteLtP (sortedMdFiles notes) ∧
    generateManifestLines notes = generateManifestLines notes2 := by
  have pred : Note → Bool := fun f => decide (mdName f ≠ ("MANIFEST.md".toList))
  have sortedS : ∀ l : List Note, List.Sorted noteLeP (List.insertionSort noteLeP l) :=
    fun l => List.sorted_insertionSort noteLeP l
  have strictSorted : ∀ l : List Note, (l.map mdName).Nodup →
      List.Pairwise noteLtP (sortedMdFiles l) := by
    intro l hl
    have hsub : List.Sublist ((l.filter (fun f => mdName f ≠ ("MANIFEST.md".toList))).map mdName)
        (l.map mdName) :=
      List.Sublist.map mdName (List.filter_sublist l)
    have hnodupF : ((l.filter (fun f => mdName f ≠ ("MANIFEST.md".toList))).map mdName).Nodup :=
      hsub.nodup hl
    have hperm : (sortedMdFiles l).Perm
        (l.filter (fun f => mdName f ≠ ("MANIFEST.md".toList))) :=
      List.perm_insertionSort noteLeP _
    have hnodupS : ((sortedMdFiles l).map mdName).Nodup :=
      ((hperm.map mdName).nodup_iff).mpr hnodupF
    have hpw : List.Pairwise (fun a b : Note => mdName a ≠ mdName b) (sortedMdFiles l) :=
      List.pairwise_map.mp hnodupS
    exact (List.Pairwise.and (sortedS _) hpw).imp
      (fun hab => noteLtP_of_noteLeP_of_name_ne hab.1 hab.2)
  have h2 : (notes2.map mdName).Nodup := ((hp.map mdName).nodup_iff).mp h
  have hpF : (notes.filter (fun f => mdName f ≠ ("MANIFEST.md".toList))).Perm
      (notes2.filter (fun f => mdName f ≠ ("MANIFEST.md".toList))) :=
    hp.filter _
  have hSS : (sortedMdFiles notes).Perm (sortedMdFiles notes2) :=
    ((List.perm_insertionSort noteLeP _).trans hpF).trans
      (List.perm_insertionSort noteLeP _).symm
  have hEq : sortedMdFiles notes = sortedMdFiles notes2 := by
    haveI : IsAntisymm Note noteLtP := by
      constructor
      intro a b hab hba
      exact absurd hba (by simp [noteLtP, strLt_asymm hab])
    exact List.eq_of_perm_of_sorted hSS (strictSorted notes h) (strictSorted notes2 h2)
  refine ⟨strictSorted notes h, ?_⟩
  unfold generateManifestLines
  rw [hEq]

/-- Witness for C3's amended theorem at a concrete folder: two notes
enumerated in reversed orders. -/
theorem generateManifest_filename_order_witness :
    List.Pairwise noteLtP
      (sortedMdFiles [⟨"Zebra".toList, some [("# Z".toList)]⟩,
                      ⟨"Alpha".toList, some [("# A".toList)]⟩]) ∧
    generateManifestLines [⟨"Zebra".toList, some [("# Z".toList)]⟩,
                           ⟨"Alpha".toList, some [("# A".toList)]⟩] =
      generateManifestLines [⟨"Alpha".toList, some [("# A".toList)]⟩,
                             ⟨"Zebra".toList, some [("# Z".toList)]⟩] :=
  generateManifest_filename_order
    [⟨"Zebra".toList, some [("# Z".toList)]⟩, ⟨"Alpha".toList, some [("# A".toList)]⟩]
    [⟨"Alpha".toList, some [("# A".toList)]⟩, ⟨"Zebra".toList, some [("# Z".toList)]⟩]
    (by decide) (by decide)

/-! ## Vault scanner, from `.github/scripts/vault-cleaner.py` -/

/-- `INBOX_AGE_THRESHOLD_DAYS` (vault-cleaner.py line 22). -/
def INBOX_AGE_THRESHOLD_DAYS : Int := 3

/-- `PROJECT_STALE_THRESHOLD_DAYS` (vault-cleaner.py line 23). -/
def PROJECT_STALE_THRESHOLD_DAYS : Int := 30

/-- `days_since` (vault-cleaner.py lines 81-84): `(datetime.now() - dt).days`,
with datetimes as epoch seconds and `timedelta.days` as floor division. -/
def daysSince (now dt : Int) : Int := (now - dt).fdiv 86400

/-- Python's `str.find(pat)`: index of the first occurrence of `pat` as a
substring, `none` for Python's `-1`. -/
def pyFind (pat : PyStr) : PyStr → Option Nat
  | [] => if pat.isPrefixOf ([] : PyStr) then some 0 else none
  | c :: rest =>
    if pat.isPrefixOf (c :: rest) then some 0
    else (pyFind pat rest).map (fun i => i + 1)

/-- The loop body of `parse_manifest` (vault-cleaner.py lines 95-102): strip
the line; if it starts with `|` and contains `[[`, extract the text between
the first `[[` and the first `]]` (Python's slice `line[start+2:end]`). -/
def parseLine (rawLine : PyStr) : Option PyStr :=
  let line := pyStrip rawLine
  if pyStartswith ("|".toList) line && (pyFind ("[[".toList) line).isSome then
    match pyFind ("[[".toList) line, pyFind ("]]".toList) line with
    | some start, some stop => some ((line.drop (start + 2)).take (stop - (start + 2)))
    | _, _ => none
  else none

/-- Split a string at every newline character (all pieces, including a final
empty piece when the string ends with a newline). -/
def splitOnNL : PyStr → List PyStr
  | [] => [[]]
  | c :: rest =>
    if c = '\n' then [] :: splitOnNL rest
    else match splitOnNL rest with
      | [] => [[c]]
      | l :: ls => (c :: l) :: ls

/-- The lines Python's `for line in f` yields for a file with this content
(sans the kept trailing `'\n'`, which the source strips immediately): a file
ending in a newline yields no final empty line. -/
def pyLines (s : PyStr) : List PyStr :=
  let parts := splitOnNL s
  if parts.getLast? = some ([] : PyStr) then parts.dropLast else parts

/-- `parse_manifest` (vault-cleaner.py lines 87-105): the set of
double-bracketed references of the manifest file; a missing file yields the
empty set. The Python `set` built by `entries.add` is the `Finset` of the
extracted occurrences. -/
def parseManifest : Option PyStr → Finset PyStr
  | none => ∅
  | some s => ((pyLines s).filterMap parseLine).toFinset

/-- `get_actual_files` (vault-cleaner.py lines 108-117): the set of stems of
the `.md` files other than `MANIFEST.md`; a missing directory yields the
empty set. -/
def getActualFiles : Option (List Note) → Finset PyStr
  | none => ∅
  | some notes =>
    ((notes.filter (fun f => mdName f ≠ ("MANIFEST.md".toList))).map Note.stem).toFinset

/-- Python's `sorted` applied to a set of strings: the ascending enumeration
of the set's elements. Well-defined on the quotient because permutations have
equal sorted enumerations (`strLeP` is antisymmetric). -/
def sortSet (s : Finset PyStr) : List PyStr :=
  Quotient.liftOn s.val (fun l => List.insertionSort strLeP l)
    (fun l1 l2 h => List.eq_of_perm_of_sorted
      (((List.perm_insertionSort strLeP l1).trans h).trans
        (List.perm_insertionSort strLeP l2).symm)
      (List.sorted_insertionSort strLeP l1)
      (List.sorted_insertionSort strLeP l2))

/-- One pillar's drift record: the `'add'` and `'remove'` lists of
`check_manifest_sync`. -/
structure DriftReport where
  add : List PyStr
  remove : List PyStr
deriving DecidableEq

/-- The per-pillar body of `check_manifest_sync` (vault-cleaner.py lines
124-141): compare the parsed manifest entries with the actual stems and
report the sorted differences when any exist. -/
def checkManifestPillar (d : KnowledgeDir) : Option DriftReport :=
  let manifestEntries := parseManifest d.manifest
  let actualFiles := getActualFiles (some d.notes)
  let missingFromManifest := actualFiles \ manifestEntries
  let extraInManifest := manifestEntries \ actualFiles
  if missingFromManifest ≠ ∅ ∨ extraInManifest ≠ ∅ then
    some ⟨sortSet missingFromManifest, sortSet extraInManifest⟩
  else none

/-- A file of an `Inbox/` or `Projects/` folder, with the timestamp that
`get_file_last_modified` resolves for it (that resolution is modelled
separately as `getFileLastModified`). -/
structure TimedFile where
  name : PyStr
  lastModified : Int
deriving DecidableEq

/-- The `FileItem` TypedDict (vault-cleaner.py lines 26-28). -/
structure FileItem where
  name : PyStr
  ageDays : Int
deriving DecidableEq

/-- An immediate child of the vault root as `iterdir` yields it: its name,
whether it is a directory, and its `Inbox/`, `Projects/` and `Knowledge/`
subfolders (`none` when the subfolder does not exist). -/
structure Entry where
  name : PyStr
  isDir : Bool
  inbox : Option (List TimedFile)
  projects : Option (List TimedFile)
  knowledge : Option KnowledgeDir
deriving DecidableEq

/-- The vault root: its immediate children, plus the `.md` files lying
directly at the root (listed here so inputs can contain misplaced root files;
the three checks of vault-cleaner.py never read them). -/
structure Vault where
  entries : List Entry
  rootFiles : List PyStr
deriving DecidableEq

/-- `get_pillars` of vault-cleaner.py (lines 37-48): non-hidden directories
having at least one of `Inbox/`, `Projects/`, `Knowledge/`, sorted. -/
def cleanerGetPillars (v : Vault) : List PyStr :=
  List.insertionSort strLeP
    ((v.entries.filter (fun it =>
        it.isDir && !(pyStartswith (".".toList) it.name) &&
        (it.inbox.isSome || it.projects.isSome || it.knowledge.isSome))).map Entry.name)

/-- `get_pillars` of sync-manifests.py (lines 89-96): non-hidden directories
having a `Knowledge/` subfolder, sorted. -/
def syncGetPillars (v : Vault) : List PyStr :=
  List.insertionSort strLeP
    ((v.entries.filter (fun it =>
        it.isDir && !(pyStartswith (".".toList) it.name) &&
        it.knowledge.isSome)).map Entry.name)

/-- The error a Python `Path.iterdir()` raises when the directory is missing. -/
inductive PyError
  | fileNotFound
deriving DecidableEq

/-- `get_pillars` of vault-cleaner.py applied to a root that may not exist:
`vault_root.iterdir()` raises `FileNotFoundError` on a missing directory and
the function has no handler, so the error propagates. -/
def cleanerGetPillarsRoot : Option Vault → Except PyError (List PyStr)
  | none => Except.error PyError.fileNotFound
  | some v => Except.ok (cleanerGetPillars v)

/-- `get_pillars` of sync-manifests.py applied to a root that may not exist;
same propagation of `FileNotFoundError` from `iterdir`. -/
def syncGetPillarsRoot : Option Vault → Except PyError (List PyStr)
  | none => Except.error PyError.fileNotFound
  | some v => Except.ok (syncGetPillars v)

/-- Path lookup `vault_root / pillar` among the root's children. -/
def entryFor (v : Vault) (name : PyStr) : Option Entry :=
  v.entries.find? (fun e => e.name == name)

/-- `check_manifest_sync` (vault-cleaner.py lines 120-143): the dict of
drifting pillars, in pillar order, as an association list. -/
def checkManifestSync (v : Vault) : List (PyStr × DriftReport) :=
  (cleanerGetPillars v).filterMap (fun p =>
    match entryFor v p with
    | none => none
    | some e =>
      match e.knowledge with
      | none => none
      | some d => (checkManifestPillar d).map (fun r => (p, r)))

/-- The shared loop body of `check_inbox_items` (vault-cleaner.py lines
156-168) and `check_stale_projects` (lines 183-195): keep the files whose age
in days meets the threshold, then sort by `key=lambda x: -x['age_days']`
(descending age). -/
def agedFileItems (now threshold : Int) (files : List TimedFile) : List FileItem :=
  List.insertionSort (fun a b => b.ageDays ≤ a.ageDays)
    (files.filterMap (fun f =>
      let ageDays := daysSince now f.lastModified
      if threshold ≤ ageDays then some ⟨f.name, ageDays⟩ else none))

/-- Per-pillar body of `check_inbox_items`: threshold
`INBOX_AGE_THRESHOLD_DAYS`. -/
def pillarInboxItems (now : Int) (files : List TimedFile) : List FileItem :=
  agedFileItems now INBOX_AGE_THRESHOLD_DAYS files

/-- Per-pillar body of `check_stale_projects`: threshold
`PROJECT_STALE_THRESHOLD_DAYS`. -/
def pillarStaleProjects (now : Int) (files : List TimedFile) : List FileItem :=
  agedFileItems now PROJECT_STALE_THRESHOLD_DAYS files

/-- `check_inbox_items` (vault-cleaner.py lines 146-170). -/
def checkInboxItems (now : Int) (v : Vault) : List (PyStr × List FileItem) :=
  (cleanerGetPillars v).filterMap (fun p =>
    match entryFor v p with
    | none => none
    | some e =>
      match e.inbox with
      | none => none
      | some files =>
        let pillarItems := pillarInboxItems now files
        if pillarItems ≠ [] then some (p, pillarItems) else none)

/-- `check_stale_projects` (vault-cleaner.py lines 173-197). -/
def checkStaleProjects (now : Int) (v : Vault) : List (PyStr × List FileItem) :=
  (cleanerGetPillars v).filterMap (fun p =>
    match entryFor v p with
    | none => none
    | some e =>
      match e.projects with
      | none => none
      | some files =>
        let pillarStale := pillarStaleProjects now files
        if pillarStale ≠ [] then some (p, pillarStale) else none)

/-- Decimal rendering of a task number, as Python's f-string interpolation. -/
def natNum (n : Nat) : PyStr := (toString n).toList

/-- Decimal rendering of an integer, as Python's f-string interpolation. -/
def intNum (i : Int) : PyStr := (toString i).toList

/-- The manifest-issues section of `generate_issue_body`
(vault-cleaner.py lines 213-234). -/
def manifestSection (taskNum : Nat) (manifestIssues : List (PyStr × DriftReport)) :
    List PyStr :=
  [("## ".toList) ++ natNum taskNum ++ (". Fix Manifest Files".toList), [],
   "The following MANIFEST.md files are out of sync:".toList, []] ++
  (manifestIssues.map (fun pi =>
    [("### ".toList) ++ pi.1 ++ ("/Knowledge/MANIFEST.md".toList), []] ++
    (pi.2.add.map (fun name => ("- Add: `[[".toList) ++ name ++ ("]]`".toList))) ++
    (pi.2.remove.map (fun name => ("- Remove: `[[".toList) ++ name ++ ("]]`".toList))) ++
    [[]])).flatten ++
  ["**Instructions:** Regenerate each manifest by scanning the Knowledge/ folder.".toList,
   "Each entry should be: `| [[filename]] | first heading or description |`".toList, []]

/-- One `- `name` (n days)` bullet (vault-cleaner.py lines 247 and 270). -/
def fileItemBullet (it : FileItem) : PyStr :=
  ("- `".toList) ++ it.name ++ ("` (".toList) ++ intNum it.ageDays ++ (" days)".toList)

/-- The inbox-items section of `generate_issue_body`
(vault-cleaner.py lines 237-257). -/
def inboxSection (taskNum : Nat) (inboxItems : List (PyStr × List FileItem)) :
    List PyStr :=
  [("## ".toList) ++ natNum taskNum ++ (". Process Inbox Items".toList), [],
   ("The following items have been in Inbox for ".toList) ++
     intNum INBOX_AGE_THRESHOLD_DAYS ++ ("+ days:".toList), []] ++
  (inboxItems.map (fun pi =>
    [("### ".toList) ++ pi.1 ++ ("/Inbox/".toList), []] ++
    (pi.2.map fileItemBullet) ++ [[]])).flatten ++
  ["**Instructions:** Review each file. Either:".toList,
   "- Move to `Knowledge/` if it is reference material".toList,
   "- Move to `Projects/` if it is active work".toList,
   "- Delete if no longer needed".toList, [],
   "After moving files to Knowledge/, update the corresponding MANIFEST.md.".toList, []]

/-- The stale-projects section of `generate_issue_body`
(vault-cleaner.py lines 260-279). -/
def staleSection (taskNum : Nat) (staleProjects : List (PyStr × List FileItem)) :
    List PyStr :=
  [("## ".toList) ++ natNum taskNum ++ (". Archive Stale Projects".toList), [],
   ("The following projects have not been modified in ".toList) ++
     intNum PROJECT_STALE_THRESHOLD_DAYS ++ ("+ days:".toList), []] ++
  (staleProjects.map (fun pi =>
    [("### ".toList) ++ pi.1 ++ ("/Projects/".toList), []] ++
    (pi.2.map fileItemBullet) ++ [[]])).flatten ++
  ["**Instructions:** For each stale project:".toList,
   "1. Create an archived summary in `Knowledge/`".toList,
   "2. Include the current git commit hash for reference".toList,
   "3. Delete the original project file".toList,
   "4. Update MANIFEST.md".toList, []]

/-- `generate_issue_body` (vault-cleaner.py lines 200-287): fixed header,
then one numbered section per non-empty result of the three checks the
script has (manifest sync, inbox items, stale projects), in that order,
with `task_num` incremented only for emitted sections; fixed footer. -/
def generateIssueBody (manifestIssues : List (PyStr × DriftReport))
    (inboxItems staleProjects : List (PyStr × List FileItem)) : PyStr :=
  let header :=
    ["# Vault Cleaning Tasks".toList, [],
     "This issue was auto-generated by the weekly vault cleaning workflow.".toList,
     "Please complete the following tasks.".toList, []]
  let s1 := if manifestIssues ≠ [] then manifestSection 1 manifestIssues else []
  let n2 : Nat := if manifestIssues ≠ [] then 2 else 1
  let s2 := if inboxItems ≠ [] then inboxSection n2 inboxItems else []
  let n3 : Nat := if inboxItems ≠ [] then n2 + 1 else n2
  let s3 := if staleProjects ≠ [] then staleSection n3 staleProjects else []
  let footer :=
    [("---".toList), [],
     "When complete, the PR should include all changes and updated manifests.".toList, []]
  joinNL (header ++ s1 ++ s2 ++ s3 ++ footer)

/-- `has_tasks = bool(manifest_issues or inbox_items or stale_projects)`
(vault-cleaner.py line 314): the only inputs to the report decision are the
three checks run by `main` (lines 308-311). -/
def vaultHasTasks (now : Int) (v : Vault) : Bool :=
  !(checkManifestSync v).isEmpty || !(checkInboxItems now v).isEmpty ||
    !(checkStaleProjects now v).isEmpty

/-- C7: the drift check reports a pillar's Knowledge folder exactly when the
set of stems parsed from the existing manifest differs from the set of actual
note stems, and when it reports, `add` is the sorted list of stems present as
files but absent from the manifest and `remove` the sorted list of stems
present in the manifest but absent as files. -/
theorem checkManifestPillar_spec (d : KnowledgeDir) :
    checkManifestPillar d =
      if parseManifest d.manifest ≠ getActualFiles (some d.notes) then
        some ⟨sortSet (getActualFiles (some d.notes) \ parseManifest d.manifest),
              sortSet (parseManifest d.manifest \ getActualFiles (some d.notes))⟩
      else none := by
  have key : (getActualFiles (some d.notes) \ parseManifest d.manifest ≠ ∅ ∨
      parseManifest d.manifest \ getActualFiles (some d.notes) ≠ ∅) ↔
      parseManifest d.manifest ≠ getActualFiles (some d.notes) := by
    constructor
    · rintro (h | h) heq
      · rw [heq] at h
        exact h (Finset.sdiff_self _)
      · rw [heq] at h
        exact h (Finset.sdiff_self _)
    · intro hne
      by_contra hcon
      push_neg at hcon
      obtain ⟨h1, h2⟩ := hcon
      exact hne (Finset.Subset.antisymm
        (Finset.sdiff_eq_empty_iff_subset.mp h2)
        (Finset.sdiff_eq_empty_iff_subset.mp h1))
  simp only [checkManifestPillar]
  exact if_congr key rfl rfl

example :
    checkManifestPillar
      ⟨[⟨"New".toList, some [("# New".toList)]⟩],
       some ("# Knowledge Manifest\n\n| File | Description |\n|------|-------------|\n| [[Ghost]] | gone |\n".toList)⟩ =
      some ⟨[("New".toList)], [("Ghost".toList)]⟩ := by
  decide

/-- A vault whose only deviation is a stray markdown file at the vault root:
the single pillar's manifest matches its empty Knowledge folder and its Inbox
and Projects folders exist but are empty. -/
def tidyVaultWithRootFile : Vault :=
  ⟨[⟨"Personal".toList, true, some [], some [],
     some ⟨[], some ("# Knowledge Manifest\n\n| File | Description |\n|------|-------------|\n| *(empty)* | Add notes to this folder |\n".toList)⟩⟩],
   [("misplaced.md".toList)]⟩

/-- A vault where all three checks the scanner actually runs fire (one
untracked note, one old inbox file, one stale project) and a stray root file
exists as well. -/
def busyVaultWithRootFile : Vault :=
  ⟨[⟨"Personal".toList, true,
     some [⟨"old.md".toList, 0⟩],
     some [⟨"stale.md".toList, 0⟩],
     some ⟨[⟨"Untracked".toList, some [("# Untracked".toList)]⟩], none⟩⟩],
   [("misplaced.md".toList)]⟩

/-- The issue body the scanner generates for `busyVaultWithRootFile` at time
8640000 (100 days after the files' timestamps). -/
def busyBody : PyStr :=
  generateIssueBody (checkManifestSync busyVaultWithRootFile)
    (checkInboxItems 8640000 busyVaultWithRootFile)
    (checkStaleProjects 8640000 busyVaultWithRootFile)

/-- C2: the scanner of vault-cleaner.py runs only three checks. On a vault
whose sole problem is a misplaced root file, it finds no tasks at all; and
when all of its checks fire, the report numbers sections 1..3 and contains
neither a root-files section nor a stub-files section (the titles its own
tests expect, `Move Files from Vault Root` and `Review Empty/Stub Files`,
appear nowhere). -/
theorem scannerRunsOnlyThreeChecks :
    tidyVaultWithRootFile.rootFiles = [("misplaced.md".toList)] ∧
    vaultHasTasks 0 tidyVaultWithRootFile = false ∧
    busyVaultWithRootFile.rootFiles = [("misplaced.md".toList)] ∧
    (("## 1. Fix Manifest Files".toList) ∈ pyLines busyBody) ∧
    (("## 2. Process Inbox Items".toList) ∈ pyLines busyBody) ∧
    (("## 3. Archive Stale Projects".toList) ∈ pyLines busyBody) ∧
    ((pyLines busyBody).all (fun l => !(pyStartswith ("## 4".toList) l)) = true) ∧
    ((pyLines busyBody).all
      (fun l => (pyFind ("Move Files from Vault Root".toList) l).isNone) = true) ∧
    ((pyLines busyBody).all
      (fun l => (pyFind ("Review Empty/Stub Files".toList) l).isNone) = true) := by
  decide

/-- C4, counterexample: neither `get_pillars` variant returns an empty result
on a missing root directory; `iterdir` raises and no handler exists. -/
theorem getPillars_missing_root_cex :
    cleanerGetPillarsRoot none ≠ Except.ok ([] : List PyStr) ∧
    syncGetPillarsRoot none ≠ Except.ok ([] : List PyStr) := by
  refine ⟨fun h => ?_, fun h => ?_⟩ <;>
    simp [cleanerGetPillarsRoot, syncGetPillarsRoot] at h

/-- C4, amended: pillar discovery applied to a root directory that does not
exist fails with the propagated directory-not-found error, in both variants. -/
theorem getPillars_missing_root_raises :
    cleanerGetPillarsRoot none = Except.error PyError.fileNotFound ∧
    syncGetPillarsRoot none = Except.error PyError.fileNotFound :=
  ⟨rfl, rfl⟩

/-- The outcome of the `subprocess.run(['git', 'log', ...])` call inside
`get_file_last_modified`: either the call itself raises, or it returns a
process result with an exit code and captured stdout. -/
inductive GitOutcome
  | raised
  | ran (returncode : Int) (stdout : PyStr)
deriving DecidableEq

/-- What the two timestamp sources yield for one file: the git outcome, and
the filesystem mtime (`none` when `stat` raises). -/
structure FileTimes where
  git : GitOutcome
  mtime : Option Int
deriving DecidableEq

/-- Python's `int(s)` on an already-stripped string, restricted to ASCII
digits with an optional sign: `none` models the `ValueError` the bare
`except` of the source catches. -/
def digitsValAux : Nat → PyStr → Option Nat
  | acc, [] => some acc
  | acc, c :: rest =>
    if c.isDigit then digitsValAux (acc * 10 + (c.toNat - 48)) rest else none

/-- `int(·)` over an optional leading sign and a nonempty digit string. -/
def pyIntParse : PyStr → Option Int
  | [] => none
  | c :: rest =>
    if c = '-' then
      if rest = [] then none else (digitsValAux 0 rest).map (fun n => -(n : Int))
    else if c = '+' then
      if rest = [] then none else (digitsValAux 0 rest).map (fun n => (n : Int))
    else (digitsValAux 0 (c :: rest)).map (fun n => (n : Int))

/-- `get_file_last_modified` (vault-cleaner.py lines 51-78): prefer the git
commit timestamp when the call ran, exited 0 and printed a non-blank integer;
otherwise the filesystem mtime; otherwise `datetime.now()`. Any exception
inside either attempt (including `int` failing) falls through to the next
tier, so the function always returns a timestamp. -/
def getFileLastModified (ft : FileTimes) (now : Int) : Int :=
  let fallback :=
    match ft.mtime with
    | some m => m
    | none => now
  match ft.git with
  | GitOutcome.raised => fallback
  | GitOutcome.ran rc out =>
    if rc = 0 ∧ pyStrip out ≠ [] then
      match pyIntParse (pyStrip out) with
      | some t => t
      | none => fallback
    else fallback

/-- The git tier of `get_file_last_modified` produced no timestamp: the call
raised, exited nonzero, printed only whitespace, or printed a non-integer. -/
def gitFailed (ft : FileTimes) : Prop :=
  ft.git = GitOutcome.raised ∨
  ∀ rc out, ft.git = GitOutcome.ran rc out →
    ¬(rc = 0 ∧ pyStrip out ≠ [] ∧ (pyIntParse (pyStrip out)).isSome = true)

/-- C8: last-modified resolution always returns a timestamp: the parsed git
commit timestamp when the lookup ran with exit status 0 and non-blank output;
on any git failure the filesystem mtime; and when that also fails, the
current time, making the file's age zero. -/
theorem getFileLastModified_spec (ft : FileTimes) (now : Int) :
    (∀ rc out t, ft.git = GitOutcome.ran rc out → rc = 0 → pyStrip out ≠ [] →
      pyIntParse (pyStrip out) = some t → getFileLastModified ft now = t) ∧
    (gitFailed ft → ∀ m, ft.mtime = some m → getFileLastModified ft now = m) ∧
    (gitFailed ft → ft.mtime = none →
      getFileLastModified ft now = now ∧ daysSince now (getFileLastModified ft now) = 0) := by
  refine ⟨?_, ?_, ?_⟩
  · intro rc out t hran hrc hout hparse
    simp [getFileLastModified, hran, hrc, hout, hparse]
  · intro hfail m hm
    cases hgit : ft.git with
    | raised => simp [getFileLastModified, hgit, hm]
    | ran rc out =>
      rcases hfail with hraised | hran
      · rw [hgit] at hraised
        exact absurd hraised (by simp)
      · have hno := hran rc out hgit
        by_cases hc : rc = 0 ∧ pyStrip out ≠ []
        · have hparse : pyIntParse (pyStrip out) = none := by
            cases hp : pyIntParse (pyStrip out) with
            | none => rfl
            | some t => exact absurd ⟨hc.1, hc.2, by simp [hp]⟩ hno
          simp [getFileLastModified, hgit, hc, hparse, hm]
        · simp [getFileLastModified, hgit, hc, hm]
  · intro hfail hm
    have hval : getFileLastModified ft now = now := by
      cases hgit : ft.git with
      | raised => simp [getFileLastModified, hgit, hm]
      | ran rc out =>
        rcases hfail with hraised | hran
        · rw [hgit] at hraised
          exact absurd hraised (by simp)
        · have hno := hran rc out hgit
          by_cases hc : rc = 0 ∧ pyStrip out ≠ []
          · have hparse : pyIntParse (pyStrip out) = none := by
              cases hp : pyIntParse (pyStrip out) with
              | none => rfl
              | some t => exact absurd ⟨hc.1, hc.2, by simp [hp]⟩ hno
            simp [getFileLastModified, hgit, hc, hparse, hm]
          · simp [getFileLastModified, hgit, hc, hm]
    refine ⟨hval, ?_⟩
    rw [hval]
    simp [daysSince]

/-- Witness for C8 at concrete inputs: a successful git lookup, a failed git
lookup with an mtime, and a doubly-failed lookup. -/
theorem getFileLastModified_spec_witness :
    getFileLastModified ⟨GitOutcome.ran 0 (" 1700000000 ".toList), some 5⟩ 9 = 1700000000 ∧
    getFileLastModified ⟨GitOutcome.ran 1 ("1700000000".toList), some 5⟩ 9 = 5 ∧
    getFileLastModified ⟨GitOutcome.raised, none⟩ 9 = 9 := by
  refine ⟨?_, ?_, ?_⟩
  · exact (getFileLastModified_spec ⟨GitOutcome.ran 0 (" 1700000000 ".toList), some 5⟩ 9).1
      0 (" 1700000000 ".toList) 1700000000 rfl rfl (by decide) (by decide)
  · exact (getFileLastModified_spec ⟨GitOutcome.ran 1 ("1700000000".toList), some 5⟩ 9).2.1
      (Or.inr (by intro rc out h; injection h with h1 h2; subst h1; simp)) 5 rfl
  · exact ((getFileLastModified_spec ⟨GitOutcome.raised, none⟩ 9).2.2
      (Or.inl rfl) rfl).1

theorem agedFileItems_mem_of {now threshold : Int} {files : List TimedFile}
    {f : TimedFile} (hf : f ∈ files) (h : threshold ≤ daysSince now f.lastModified) :
    (⟨f.name, daysSince now f.lastModified⟩ : FileItem) ∈ agedFileItems now threshold files := by
  unfold agedFileItems
  refine (List.perm_insertionSort _ _).mem_iff.mpr ?_
  exact List.mem_filterMap.mpr ⟨f, hf, by simp [h]⟩

theorem agedFileItems_not_mem {now threshold : Int} {files : List TimedFile}
    {f : TimedFile} (hf : f ∈ files)
    (hn : files.Pairwise (fun a b => a.name ≠ b.name))
    (h : daysSince now f.lastModified < threshold) :
    ∀ it ∈ agedFileItems now threshold files, it.name ≠ f.name := by
  intro it hit heq
  unfold agedFileItems at hit
  have hit2 := (List.perm_insertionSort
    (fun a b : FileItem => b.ageDays ≤ a.ageDays) _).mem_iff.mp hit
  obtain ⟨g, hg, hgi⟩ := List.mem_filterMap.mp hit2
  by_cases hcg : threshold ≤ daysSince now g.lastModified
  · simp only [if_pos hcg] at hgi
    have hname : g.name = f.name := by
      have : it.name = g.name := by
        cases hgi
        rfl
      rw [← this, heq]
    have hgf : g = f := by
      by_contra hne
      exact (hn.forall (fun a b hab => fun hba => hab hba.symm) hg hf hne) hname
    rw [hgf] at hcg
    exact absurd h (not_lt.mpr hcg)
  · simp [hcg] at hgi

/-- C9: an inbox note whose computed age is exactly 3 days is reported by the
aging-inbox check and one aged exactly 2 days is not; a project note aged
exactly 30 days is reported by the stale-project check and one aged 29 days
is not (within folders, filenames are distinct). -/
theorem threshold_boundaries (now : Int) (inboxFiles projectFiles : List TimedFile)
    (fi fp : TimedFile) (hfi : fi ∈ inboxFiles) (hfp : fp ∈ projectFiles)
    (hnI : inboxFiles.Pairwise (fun a b => a.name ≠ b.name))
    (hnP : projectFiles.Pairwise (fun a b => a.name ≠ b.name)) :
    (daysSince now fi.lastModified = 3 →
      (⟨fi.name, 3⟩ : FileItem) ∈ pillarInboxItems now inboxFiles) ∧
    (daysSince now fi.lastModified = 2 →
      ∀ it ∈ pillarInboxItems now inboxFiles, it.name ≠ fi.name) ∧
    (daysSince now fp.lastModified = 30 →
      (⟨fp.name, 30⟩ : FileItem) ∈ pillarStaleProjects now projectFiles) ∧
    (daysSince now fp.lastModified = 29 →
      ∀ it ∈ pillarStaleProjects now projectFiles, it.name ≠ fp.name) := by
  refine ⟨fun h3 => ?_, fun h2 => ?_, fun h30 => ?_, fun h29 => ?_⟩
  · have := @agedFileItems_mem_of now INBOX_AGE_THRESHOLD_DAYS inboxFiles fi
      hfi (by rw [h3]; decide)
    rwa [h3] at this
  · exact agedFileItems_not_mem hfi hnI (by rw [h2]; decide)
  · have := @agedFileItems_mem_of now PROJECT_STALE_THRESHOLD_DAYS projectFiles fp
      hfp (by rw [h30]; decide)
    rwa [h30] at this
  · exact agedFileItems_not_mem hfp hnP (by rw [h29]; decide)

/-- Witness for C9 at concrete folders: files aged exactly 3, 2, 30 and 29
days (now = day 40 of the epoch). -/
theorem threshold_boundaries_witness :
    ((⟨"a.md".toList, 3⟩ : FileItem) ∈
      pillarInboxItems 3456000 [⟨"a.md".toList, 3196800⟩, ⟨"b.md".toList, 3283200⟩]) ∧
    (∀ it ∈ pillarInboxItems 3456000 [⟨"a.md".toList, 3196800⟩, ⟨"b.md".toList, 3283200⟩],
      it.name ≠ ("b.md".toList)) ∧
    ((⟨"p.md".toList, 30⟩ : FileItem) ∈
      pillarStaleProjects 3456000 [⟨"p.md".toList, 864000⟩, ⟨"q.md".toList, 950400⟩]) ∧
    (∀ it ∈ pillarStaleProjects 3456000 [⟨"p.md".toList, 864000⟩, ⟨"q.md".toList, 950400⟩],
      it.name ≠ ("q.md".toList)) := by
  refine ⟨?_, ?_, ?_, ?_⟩
  · exact (threshold_boundaries 3456000
      [⟨"a.md".toList, 3196800⟩, ⟨"b.md".toList, 3283200⟩]
      [⟨"p.md".toList, 864000⟩, ⟨"q.md".toList, 950400⟩]
      ⟨"a.md".toList, 3196800⟩ ⟨"p.md".toList, 864000⟩
      (by decide) (by decide) (by decide) (by decide)).1 (by decide)
  · exact (threshold_boundaries 3456000
      [⟨"a.md".toList, 3196800⟩, ⟨"b.md".toList, 3283200⟩]
      [⟨"p.md".toList, 864000⟩, ⟨"q.md".toList, 950400⟩]
      ⟨"b.md".toList, 3283200⟩ ⟨"p.md".toList, 864000⟩
      (by decide) (by decide) (by decide) (by decide)).2.1 (by decide)
  · exact (threshold_boundaries 3456000
      [⟨"a.md".toList, 3196800⟩, ⟨"b.md".toList, 3283200⟩]
      [⟨"p.md".toList, 864000⟩, ⟨"q.md".toList, 950400⟩]
      ⟨"a.md".toList, 3196800⟩ ⟨"p.md".toList, 864000⟩
      (by decide) (by decide) (by decide) (by decide)).2.2.1 (by decide)
  · exact (threshold_boundaries 3456000
      [⟨"a.md".toList, 3196800⟩, ⟨"b.md".toList, 3283200⟩]
      [⟨"p.md".toList, 864000⟩, ⟨"q.md".toList, 950400⟩]
      ⟨"a.md".toList, 3196800⟩ ⟨"q.md".toList, 950400⟩
      (by decide) (by decide) (by decide) (by decide)).2.2.2 (by decide)

/-- C10: a file whose resolved last-modified timestamp lies in the future has
a negative computed age and is reported by neither the aging-inbox check nor
the stale-project check (within a folder, filenames are distinct). -/
theorem future_timestamp_not_reported (now : Int) (files : List TimedFile)
    (f : TimedFile) (hf : f ∈ files)
    (hn : files.Pairwise (fun a b => a.name ≠ b.name))
    (hfut : now < f.lastModified) :
    daysSince now f.lastModified < 0 ∧
    (∀ it ∈ pillarInboxItems now files, it.name ≠ f.name) ∧
    (∀ it ∈ pillarStaleProjects now files, it.name ≠ f.name) := by
  have hneg : daysSince now f.lastModified < 0 := by
    rw [daysSince, Int.fdiv_eq_ediv _ (by norm_num : (0 : Int) ≤ 86400)]
    exact Int.ediv_neg' (by omega) (by norm_num)
  refine ⟨hneg, ?_, ?_⟩
  · exact agedFileItems_not_mem hf hn (by
      have : (0 : Int) < INBOX_AGE_THRESHOLD_DAYS := by decide
      omega)
  · exact agedFileItems_not_mem hf hn (by
      have : (0 : Int) < PROJECT_STALE_THRESHOLD_DAYS := by decide
      omega)

/-- Witness for C10: at time 0, a file last modified one day in the future. -/
theorem future_timestamp_not_reported_witness :
    daysSince 0 ((⟨"f.md".toList, 86400⟩ : TimedFile).lastModified) < 0 ∧
    (∀ it ∈ pillarInboxItems 0 [⟨"f.md".toList, 86400⟩], it.name ≠ ("f.md".toList)) ∧
    (∀ it ∈ pillarStaleProjects 0 [⟨"f.md".toList, 86400⟩], it.name ≠ ("f.md".toList)) :=
  future_timestamp_not_reported 0 [⟨"f.md".toList, 86400⟩] ⟨"f.md".toList, 86400⟩
    (by decide) (by decide) (by decide)

/-- C5: description derivation: unreadable content yields the sentinel;
otherwise leading blank/whitespace-only lines are skipped and the first
non-blank (stripped) line decides: a line beginning with `#` markers is
returned with the markers and surrounding whitespace stripped, verbatim with
no length limit; any other line is truncated to 80 characters with a
3-character `...` suffix appended exactly when it was longer than 80; if all
lines are blank the sentinel is returned. -/
theorem deriveDescription_spec :
    getFirstHeading none = ("No description".toList) ∧
    ∀ content : List PyStr,
      getFirstHeading (some content) =
        match ((content.map pyStrip).filter (fun l => !(l.isEmpty))).head? with
        | none => ("No description".toList)
        | some l =>
          if pyStartswith ("#".toList) l then pyStrip (l.dropWhile (fun c => c = '#'))
          else l.take 80 ++ (if 80 < l.length then ("...".toList) else []) := by
  refine ⟨rfl, ?_⟩
  intro content
  induction content with
  | nil => rfl
  | cons rawLine rest ih =>
    show firstHeadingLines (rawLine :: rest) = _
    by_cases h : pyStrip rawLine = []
    · have hemp : (pyStrip rawLine).isEmpty = true := by simp [h]
      simp only [firstHeadingLines, h, if_pos, List.map_cons, List.filter_cons, hemp,
        Bool.not_true, if_false, Bool.false_eq_true]
      exact ih
    · have hemp : (pyStrip rawLine).isEmpty = false := by
        cases hc : pyStrip rawLine with
        | nil => exact absurd hc h
        | cons a l => rfl
      simp only [firstHeadingLines, h, if_neg, List.map_cons, List.filter_cons, hemp,
        Bool.not_false, if_true, List.head?_cons]
      rfl

theorem pyStripLeft_sublist (s : PyStr) : (pyStripLeft s).Sublist s :=
  List.dropWhile_sublist _

theorem pyStripRight_sublist (s : PyStr) : (pyStripRight s).Sublist s := by
  have h := (@List.dropWhile_sublist Char s.reverse Char.isWhitespace).reverse
  rwa [List.reverse_reverse] at h

theorem pyStrip_sublist (s : PyStr) : (pyStrip s).Sublist s :=
  (pyStripRight_sublist _).trans (pyStripLeft_sublist s)

theorem not_mem_firstHeadingLines {c : Char}
    (hc1 : c ∉ ("No description".toList)) (hc2 : c ∉ ("...".toList)) :
    ∀ ls : List PyStr, (∀ l ∈ ls, c ∉ l) → c ∉ firstHeadingLines ls := by
  intro ls
  induction ls with
  | nil => exact fun _ => hc1
  | cons raw rest ih =>
    intro h
    have hraw : c ∉ raw := h raw (List.mem_cons_self raw rest)
    have hrest : ∀ l ∈ rest, c ∉ l := fun l hl => h l (List.mem_cons_of_mem raw hl)
    show c ∉ firstHeadingLines (raw :: rest)
    simp only [firstHeadingLines]
    by_cases hb : pyStrip raw = []
    · rw [if_pos hb]
      exact ih hrest
    · rw [if_neg hb]
      by_cases hh : pyStartswith ("#".toList) (pyStrip raw) = true
      · rw [if_pos hh]
        intro hmem
        exact hraw ((((pyStrip_sublist _).trans
          (List.dropWhile_sublist _)).trans (pyStrip_sublist raw)).subset hmem)
      · rw [if_neg hh]
        intro hmem
        rcases List.mem_append.mp hmem with hmem | hmem
        · exact hraw (((List.take_sublist _ _).trans (pyStrip_sublist raw)).subset hmem)
        · by_cases hlen : 80 < (pyStrip raw).length
          · rw [if_pos hlen] at hmem
            exact hc2 hmem
          · rw [if_neg hlen] at hmem
            exact absurd hmem (List.not_mem_nil c)

theorem newline_not_mem_getFirstHeading (content : Option (List PyStr))
    (h : ∀ ls, content = some ls → ∀ l ∈ ls, '\n' ∉ l) :
    '\n' ∉ getFirstHeading content := by
  cases content with
  | none =>
    show '\n' ∉ ("No description".toList)
    decide
  | some ls => exact not_mem_firstHeadingLines (by decide) (by decide) ls (h ls rfl)

theorem splitOnNL_no_newline {l : PyStr} (h : '\n' ∉ l) : splitOnNL l = [l] := by
  induction l with
  | nil => rfl
  | cons c t ih =>
    have hc : ¬ c = '\n' := fun hceq => h (by rw [hceq]; exact List.mem_cons_self _ _)
    have ht : '\n' ∉ t := fun hm => h (List.mem_cons_of_mem c hm)
    simp only [splitOnNL, if_neg hc, ih ht]

theorem splitOnNL_append_newline {l : PyStr} (h : '\n' ∉ l) (t : PyStr) :
    splitOnNL (l ++ '\n' :: t) = l :: splitOnNL t := by
  induction l with
  | nil => simp [splitOnNL]
  | cons c cs ih =>
    have hc : ¬ c = '\n' := fun hceq => h (by rw [hceq]; exact List.mem_cons_self _ _)
    have hcs : '\n' ∉ cs := fun hm => h (List.mem_cons_of_mem c hm)
    have ih2 : splitOnNL (cs.append ('\n' :: t)) = cs :: splitOnNL t := ih hcs
    simp only [List.cons_append, splitOnNL, if_neg hc, ih2]

theorem joinNL_split : ∀ L : List PyStr, L ≠ [] → (∀ l ∈ L, '\n' ∉ l) →
    splitOnNL (joinNL L) = L := by
  intro L
  induction L with
  | nil => exact fun hne _ => absurd rfl hne
  | cons l ls ih =>
    intro _ h
    cases ls with
    | nil => exact splitOnNL_no_newline (h l (List.mem_cons_self l []))
    | cons l2 ls2 =>
      have hstep : joinNL (l :: l2 :: ls2) = l ++ '\n' :: joinNL (l2 :: ls2) := rfl
      rw [hstep, splitOnNL_append_newline (h l (List.mem_cons_self l _)),
        ih (by simp) (fun x hx => h x (List.mem_cons_of_mem l hx))]

theorem pyFind_none_cons {pat : PyStr} {c : Char} {rest : PyStr}
    (h : pyFind pat (c :: rest) = none) :
    pat.isPrefixOf (c :: rest) = false ∧ pyFind pat rest = none := by
  by_cases hp : pat.isPrefixOf (c :: rest) = true
  · simp only [pyFind, if_pos hp] at h
    exact Option.noConfusion h
  · have hp' : pat.isPrefixOf (c :: rest) = false := by
      cases hpp : pat.isPrefixOf (c :: rest) with
      | true => exact absurd hpp hp
      | false => rfl
    refine ⟨hp', ?_⟩
    simp only [pyFind] at h
    rw [if_neg hp] at h
    exact Option.map_eq_none'.mp h

theorem pyFind_step {pat : PyStr} {c : Char} {r : PyStr}
    (h : pat.isPrefixOf (c :: r) = false) :
    pyFind pat (c :: r) = (pyFind pat r).map (fun i => i + 1) := by
  simp only [pyFind]
  rw [if_neg (by simp [h])]

theorem pyFind_close : ∀ stem tail : PyStr,
    pyFind ("]]".toList) stem = none → stem.getLast? ≠ some ']' →
    pyFind ("]]".toList) (stem ++ ']' :: ']' :: tail) = some stem.length := by
  intro stem
  induction stem with
  | nil =>
    intro tail _ _
    show pyFind ("]]".toList) (']' :: ']' :: tail) = some 0
    cases tail <;> rfl
  | cons c cs ih =>
    intro tail h1 h2
    obtain ⟨hpre, hrest⟩ := pyFind_none_cons h1
    cases cs with
    | nil =>
      have hc : ¬ c = ']' := fun hceq => h2 (by rw [hceq]; rfl)
      have hcb : ((']' : Char) == c) = false := by
        cases hbeq : (']' : Char) == c with
        | true => exact absurd (eq_comm.mp (beq_iff_eq.mp hbeq)) hc
        | false => rfl
      have hfz : pyFind ("]]".toList) (']' :: ']' :: tail) = some 0 := by
        cases tail <;> rfl
      have hpre2 : ("]]".toList).isPrefixOf (c :: ']' :: ']' :: tail) = false := by
        simp [List.isPrefixOf, hcb]
      show pyFind ("]]".toList) (c :: ']' :: ']' :: tail) = some 1
      rw [pyFind_step hpre2, hfz]
      rfl
    | cons d cs' =>
      have hpre2 : ("]]".toList).isPrefixOf (c :: ((d :: cs') ++ ']' :: ']' :: tail)) = false := by
        revert hpre
        simp [List.isPrefixOf]
      have h2' : (d :: cs').getLast? ≠ some ']' := by
        rwa [List.getLast?_cons_cons] at h2
      show pyFind ("]]".toList) ((c :: d :: cs') ++ ']' :: ']' :: tail) = some (c :: d :: cs').length
      rw [List.cons_append, pyFind_step hpre2, ih tail hrest h2']
      rfl

theorem pyStripLeft_cons_of_not_ws {c : Char} (hc : c.isWhitespace = false) (t : PyStr) :
    pyStripLeft (c :: t) = c :: t := by
  simp [pyStripLeft, List.dropWhile_cons, hc]

theorem pyStripRight_concat_of_not_ws {b : Char} (hb : b.isWhitespace = false) (l : PyStr) :
    pyStripRight (l ++ [b]) = l ++ [b] := by
  simp [pyStripRight, List.reverse_append, List.dropWhile_cons, hb]

theorem parseLine_manifestRow (n : Note)
    (h1 : pyFind ("]]".toList) n.stem = none)
    (h2 : n.stem.getLast? ≠ some ']') :
    parseLine (manifestRow n) = some n.stem := by
  have hcons : manifestRow n = '|' :: ' ' :: '[' :: '[' ::
      (n.stem ++ ']' :: ']' :: (' ' :: '|' :: ' ' ::
        (getFirstHeading n.content ++ [' ', '|']))) := by
    simp only [manifestRow, List.append_assoc]
    rfl
  have hconcat : manifestRow n = ('|' :: ' ' :: '[' :: '[' ::
      (n.stem ++ ']' :: ']' :: (' ' :: '|' :: ' ' ::
        (getFirstHeading n.content ++ [' '])))) ++ ['|'] := by
    rw [hcons]
    simp [List.cons_append, List.append_assoc]
  have hstrip : pyStrip (manifestRow n) = manifestRow n := by
    show pyStripRight (pyStripLeft (manifestRow n)) = manifestRow n
    rw [hcons, pyStripLeft_cons_of_not_ws (by decide), ← hcons, hconcat,
      pyStripRight_concat_of_not_ws (by decide)]
  have hsw : pyStartswith ("|".toList) (manifestRow n) = true := by
    rw [hcons]
    rfl
  have hfind1 : pyFind ("[[".toList) (manifestRow n) = some 2 := by
    rw [hcons, pyFind_step (by rfl), pyFind_step (by rfl)]
    have hz : pyFind ("[[".toList) ('[' :: '[' ::
        (n.stem ++ ']' :: ']' :: (' ' :: '|' :: ' ' ::
          (getFirstHeading n.content ++ [' ', '|'])))) = some 0 := by
      simp only [pyFind]
      rw [if_pos (by simp [List.isPrefixOf])]
    rw [hz]
    rfl
  have hfind2 : pyFind ("]]".toList) (manifestRow n) = some (n.stem.length + 4) := by
    rw [hcons, pyFind_step (by rfl), pyFind_step (by rfl), pyFind_step (by rfl),
      pyFind_step (by rfl), pyFind_close n.stem _ h1 h2]
    rfl
  simp only [parseLine, hstrip, hsw, hfind1, hfind2, Option.isSome_some, Bool.and_true,
    if_pos]
  rw [hcons]
  show some ((List.drop 4 _).take (n.stem.length + 4 - (2 + 2))) = some n.stem
  simp only [List.drop_succ_cons, List.drop_zero]
  rw [show n.stem.length + 4 - (2 + 2) = n.stem.length from rfl]
  rw [show (n.stem ++ ']' :: ']' :: (' ' :: '|' :: ' ' ::
    (getFirstHeading n.content ++ [' ', '|']))).take n.stem.length =
    n.stem from List.take_left _ _]

/-- C6, counterexample: for the folder with the single note stem `a]` the
round trip fails: the generated row is `| [[a]]] | T |`, whose first `]]`
ends after the `a`, so parsing yields the set with `a` instead of `a]`. -/
theorem manifest_roundTrip_cex :
    parseManifest (some (generateManifestContent
        ⟨[⟨"a]".toList, some [("# T".toList)]⟩], none⟩)) ≠
      getActualFiles (some [⟨"a]".toList, some [("# T".toList)]⟩]) ∧
    parseManifest (some (generateManifestContent
        ⟨[⟨"a]".toList, some [("# T".toList)]⟩], none⟩)) = {("a".toList)} := by
  decide

theorem filterMap_parseRow_eq_map_stem : ∀ l : List Note,
    (∀ n ∈ l, parseLine (manifestRow n) = some n.stem) →
    l.filterMap (fun n => parseLine (manifestRow n)) = l.map Note.stem := by
  intro l
  induction l with
  | nil => exact fun _ => rfl
  | cons n t ih =>
    intro h
    rw [List.filterMap_cons, h n (List.mem_cons_self n t), List.map_cons,
      ih (fun m hm => h m (List.mem_cons_of_mem n hm))]

theorem toFinset_eq_of_perm (l1 l2 : List PyStr) (h : l1.Perm l2) :
    l1.toFinset = l2.toFinset :=
  Finset.ext fun a => by simp [List.mem_toFinset, h.mem_iff]

/-- C6, amended: for every folder whose note stems contain no `]]`, do not
end in `]` and contain no newline (and whose note lines contain no embedded
newline, as lines read from a file never do), parsing the double-bracketed
references out of the manifest generated for that folder yields exactly the
set of note stems present, including the empty set for a folder with no
notes. -/
theorem manifest_roundTrip (d : KnowledgeDir)
    (hstem : ∀ n ∈ d.notes, pyFind ("]]".toList) n.stem = none ∧
      n.stem.getLast? ≠ some ']' ∧ '\n' ∉ n.stem)
    (hcontent : ∀ n ∈ d.notes, ∀ ls, n.content = some ls → ∀ l ∈ ls, '\n' ∉ l) :
    parseManifest (some (generateManifestContent d)) =
      getActualFiles (some d.notes) := by
  have hmemF : ∀ n ∈ sortedMdFiles d.notes, n ∈ d.notes := by
    intro n hn
    exact List.mem_of_mem_filter ((List.perm_insertionSort noteLeP _).mem_iff.mp hn)
  have hheadernl : ∀ x ∈ manifestHeader, '\n' ∉ x := by decide
  have hlines : ∀ l ∈ generateManifestLines d.notes, '\n' ∉ l := by
    intro l hl
    simp only [generateManifestLines] at hl
    rcases List.mem_append.mp hl with hl | hl
    · rcases List.mem_append.mp hl with hh | hr
      · exact hheadernl l hh
      · by_cases hempty : sortedMdFiles d.notes = []
        · rw [if_pos hempty] at hr
          have : l = placeholderRow := List.mem_singleton.mp hr
          rw [this]
          decide
        · rw [if_neg hempty] at hr
          obtain ⟨n, hn, hln⟩ := List.mem_map.mp hr
          obtain ⟨_, _, hs3⟩ := hstem n (hmemF n hn)
          have hdesc : '\n' ∉ getFirstHeading n.content :=
            newline_not_mem_getFirstHeading n.content
              (fun ls hls => hcontent n (hmemF n hn) ls hls)
          rw [← hln]
          simp only [manifestRow]
          intro hmem
          rcases List.mem_append.mp hmem with hmem | hmem
          · rcases List.mem_append.mp hmem with hmem | hmem
            · rcases List.mem_append.mp hmem with hmem | hmem
              · rcases List.mem_append.mp hmem with hmem | hmem
                · revert hmem
                  decide
                · exact hs3 hmem
              · revert hmem
                decide
            · exact hdesc hmem
          · revert hmem
            decide
    · have : l = [] := List.mem_singleton.mp hl
      rw [this]
      exact List.not_mem_nil _
  have hform : generateManifestLines d.notes =
      (manifestHeader ++ (if sortedMdFiles d.notes = [] then [placeholderRow]
        else (sortedMdFiles d.notes).map manifestRow)) ++ [[]] := by
    simp [generateManifestLines]
  have hne : generateManifestLines d.notes ≠ [] := by
    rw [hform]
    simp
  have hsplit : pyLines (generateManifestContent d) =
      manifestHeader ++ (if sortedMdFiles d.notes = [] then [placeholderRow]
        else (sortedMdFiles d.notes).map manifestRow) := by
    show pyLines (joinNL (generateManifestLines d.notes)) = _
    simp only [pyLines]
    rw [joinNL_split _ hne hlines, hform, List.getLast?_concat, if_pos rfl,
      List.dropLast_concat]
  have hheader : manifestHeader.filterMap parseLine = [] := by decide
  show ((pyLines (generateManifestContent d)).filterMap parseLine).toFinset = _
  rw [hsplit, List.filterMap_append, hheader, List.nil_append]
  by_cases hempty : sortedMdFiles d.notes = []
  · rw [if_pos hempty]
    have hpl : ([placeholderRow] : List PyStr).filterMap parseLine = [] := by decide
    have hfil : d.notes.filter (fun f => mdName f ≠ ("MANIFEST.md".toList)) = [] := by
      have hperm : (sortedMdFiles d.notes).Perm
          (d.notes.filter (fun f => mdName f ≠ ("MANIFEST.md".toList))) :=
        List.perm_insertionSort _ _
      rw [hempty] at hperm
      exact (hperm.symm).eq_nil
    rw [hpl]
    show (([] : List PyStr)).toFinset = getActualFiles (some d.notes)
    rw [show getActualFiles (some d.notes) =
      ((d.notes.filter (fun f => mdName f ≠ ("MANIFEST.md".toList))).map Note.stem).toFinset
      from rfl, hfil]
    rfl
  · rw [if_neg hempty]
    have hrowparse : ∀ n ∈ sortedMdFiles d.notes,
        parseLine (manifestRow n) = some n.stem := by
      intro n hn
      obtain ⟨hs1, hs2, _⟩ := hstem n (hmemF n hn)
      exact parseLine_manifestRow n hs1 hs2
    have hmaps : ((sortedMdFiles d.notes).map manifestRow).filterMap parseLine =
        (sortedMdFiles d.notes).map Note.stem := by
      rw [List.filterMap_map]
      exact filterMap_parseRow_eq_map_stem _ hrowparse
    rw [hmaps]
    have hperm2 : ((sortedMdFiles d.notes).map Note.stem).Perm
        ((d.notes.filter (fun f => mdName f ≠ ("MANIFEST.md".toList))).map Note.stem) :=
      (List.perm_insertionSort _ _).map _
    rw [toFinset_eq_of_perm _ _ hperm2]
    rfl

/-- Witness for C6's amended theorem at a concrete two-note folder. -/
theorem manifest_roundTrip_witness :
    parseManifest (some (generateManifestContent
        ⟨[⟨"Beta".toList, some [("# B".toList)]⟩,
          ⟨"Alpha".toList, some [("# A".toList)]⟩], none⟩)) =
      getActualFiles (some [⟨"Beta".toList, some [("# B".toList)]⟩,
        ⟨"Alpha".toList, some [("# A".toList)]⟩]) :=
  manifest_roundTrip
    ⟨[⟨"Beta".toList, some [("# B".toList)]⟩,
      ⟨"Alpha".toList, some [("# A".toList)]⟩], none⟩
    (by decide) (by decide)
